import Mathlib

/-!
Verification of the cai-connector repository's specified core components against
a shallow embedding of its TypeScript sources.

Strings are modelled as `List Char`.  JavaScript regular-expression semantics
(ECMA-262) relevant to the embedded functions are reproduced faithfully:
`\s` is the JS whitespace class (which includes line terminators), `.` excludes
line terminators, multiline `^` matches at index 0 or after any line terminator,
greedy quantifiers with backtracking are resolved to their deterministic
outcome for the concrete patterns involved (justified case by case in comments).
-/

/-! Character classes used by the JS regexes in the sources. -/

/-- JS line terminators: LF, CR, LS, PS (ECMA-262 LineTerminator). -/
def isLineTerm (c : Char) : Bool :=
  c = '\n' || c = '\r' || c = ' ' || c = ' '

/-- JS `\s` class: WhiteSpace plus LineTerminator code points. -/
def isJsSpace (c : Char) : Bool :=
  c = ' ' || c = '\t' || c = '\n' || c = '\u000B' || c = '\u000C' || c = '\r' ||
  c = ' ' || c = ' ' || (' ' ≤ c && c ≤ ' ') ||
  c = ' ' || c = ' ' || c = ' ' || c = ' ' ||
  c = '　' || c = '﻿'

/-- JS `[ \t]` class used by the continuation-line pattern. -/
def isIndent (c : Char) : Bool :=
  c = ' ' || c = '\t'

/-- JS `\d` class (ASCII digits only). -/
def isDigitCh (c : Char) : Bool :=
  '0' ≤ c && c ≤ '9'

theorem isDigitCh_not_lineTerm {c : Char} (h : isDigitCh c = true) :
    isLineTerm c = false := by
  simp only [isDigitCh, Bool.and_eq_true, decide_eq_true_eq] at h
  obtain ⟨h1, h2⟩ := h
  simp only [isLineTerm, Bool.or_eq_false_iff, decide_eq_false_iff_not]
  refine ⟨⟨⟨?_, ?_⟩, ?_⟩, ?_⟩ <;> rintro rfl
  · exact absurd h1 (by decide)
  · exact absurd h1 (by decide)
  · exact absurd h2 (by decide)
  · exact absurd h2 (by decide)

theorem isDigitCh_not_jsSpace {c : Char} (h : isDigitCh c = true) :
    isJsSpace c = false := by
  simp only [isDigitCh, Bool.and_eq_true, decide_eq_true_eq] at h
  obtain ⟨h1, h2⟩ := h
  simp only [isJsSpace, Bool.or_eq_false_iff, decide_eq_false_iff_not,
    Bool.and_eq_false_iff]
  refine ⟨⟨⟨⟨⟨⟨⟨⟨⟨⟨⟨⟨⟨⟨?_, ?_⟩, ?_⟩, ?_⟩, ?_⟩, ?_⟩, ?_⟩, ?_⟩, ?_⟩, ?_⟩, ?_⟩, ?_⟩,
    ?_⟩, ?_⟩, ?_⟩
  all_goals first
    | (rintro rfl; first | exact absurd h1 (by decide) | exact absurd h2 (by decide))
    | (left; intro hge; exact absurd (le_trans hge h2) (by decide))

/-! Generic list helpers shared by the embedded functions. -/

/-- Drops `p` as an exact prefix of `s`, returning the remainder. -/
def stripPrefixCh : List Char → List Char → Option (List Char)
  | [], s => some s
  | _ :: _, [] => none
  | p :: ps, c :: cs => if c = p then stripPrefixCh ps cs else none

/-- Splits a list at its last `'\n'`: returns (part up to and including the last
newline, part after it), or `none` when the list has no newline. -/
def splitLastNl : List Char → Option (List Char × List Char)
  | [] => none
  | c :: cs =>
    match splitLastNl cs with
    | some (a, b) => some (c :: a, b)
    | none => if c = '\n' then some (['\n'], cs) else none

/-- JS `String.prototype.trim`: strips JS whitespace from both ends. -/
def jsTrim (s : List Char) : List Char :=
  ((s.dropWhile isJsSpace).reverse.dropWhile isJsSpace).reverse

/-- Decimal value of an all-digit string, as `Number` computes it on digit
input (exact for the process-id magnitudes involved). -/
def parseDecimal (l : List Char) : Nat :=
  l.foldl (fun acc c => acc * 10 + (c.toNat - '0'.toNat)) 0

theorem stripPrefixCh_append {p l₁ l₂ r : List Char}
    (h : stripPrefixCh p l₁ = some r) :
    stripPrefixCh p (l₁ ++ l₂) = some (r ++ l₂) := by
  induction p generalizing l₁ r with
  | nil =>
    simp only [stripPrefixCh, Option.some.injEq] at h
    simp [stripPrefixCh, h]
  | cons q qs ih =>
    cases l₁ with
    | nil => simp [stripPrefixCh] at h
    | cons c cs =>
      simp only [stripPrefixCh] at h
      by_cases hc : c = q
      · subst hc
        simp only [if_pos rfl] at h
        simp only [List.cons_append, stripPrefixCh, if_pos rfl]
        exact ih h
      · simp [hc] at h

theorem takeWhile_append_stop {p : Char → Bool} {l₁ : List Char}
    (l₂ : List Char) (h : l₁.dropWhile p ≠ []) :
    (l₁ ++ l₂).takeWhile p = l₁.takeWhile p := by
  induction l₁ with
  | nil => simp [List.dropWhile] at h
  | cons c cs ih =>
    by_cases hc : p c
    · simp only [List.dropWhile, hc] at h
      simp [List.takeWhile, hc, ih h]
    · simp [List.takeWhile, hc]

theorem dropWhile_append_stop {p : Char → Bool} {l₁ : List Char}
    (l₂ : List Char) (h : l₁.dropWhile p ≠ []) :
    (l₁ ++ l₂).dropWhile p = l₁.dropWhile p ++ l₂ := by
  induction l₁ with
  | nil => simp [List.dropWhile] at h
  | cons c cs ih =>
    by_cases hc : p c
    · simp only [List.dropWhile, hc] at h
      simp [List.dropWhile, hc, ih h]
    · simp [List.dropWhile, hc]

theorem takeWhile_append_all {p : Char → Bool} {l₁ : List Char}
    (l₂ : List Char) (h : ∀ c ∈ l₁, p c = true) :
    (l₁ ++ l₂).takeWhile p = l₁ ++ l₂.takeWhile p := by
  induction l₁ with
  | nil => simp
  | cons c cs ih =>
    have hc : p c = true := h c (by simp)
    simp [List.takeWhile, hc, ih (fun d hd => h d (by simp [hd]))]

theorem dropWhile_append_all {p : Char → Bool} {l₁ : List Char}
    (l₂ : List Char) (h : ∀ c ∈ l₁, p c = true) :
    (l₁ ++ l₂).dropWhile p = l₂.dropWhile p := by
  induction l₁ with
  | nil => simp
  | cons c cs ih =>
    have hc : p c = true := h c (by simp)
    simp [List.dropWhile, hc, ih (fun d hd => h d (by simp [hd]))]

theorem length_dropWhileLe (p : Char → Bool) (l : List Char) :
    (l.dropWhile p).length ≤ l.length := by
  induction l with
  | nil => simp
  | cons c cs ih =>
    by_cases hc : p c
    · simp only [List.dropWhile, hc]
      exact Nat.le_succ_of_le ih
    · simp [List.dropWhile, hc]

theorem head_dropWhile_not {p : Char → Bool} {l r : List Char} {c : Char}
    (h : l.dropWhile p = c :: r) : p c = false := by
  induction l with
  | nil => simp [List.dropWhile] at h
  | cons d ds ih =>
    by_cases hd : p d
    · simp only [List.dropWhile, hd] at h
      exact ih h
    · simp only [List.dropWhile, hd] at h
      injection h with h1 h2
      subst h1
      simpa using hd

/-! Model of `src/sshConfig.ts`.

The pattern `HOST_CML_PATTERN = /^Host\s+cml\s*\n(?:^[ \t]+\S.*\n?)*/gm` is
embedded as a deterministic scanner.  For this pattern, ECMA-262 backtracking
resolves uniquely:
* `Host\s+cml` — since `c` is not whitespace, `\s+` must consume the whole
  maximal whitespace run after `Host` (a shorter prefix would leave a
  whitespace character where `cml` must match), and it must be non-empty;
* `\s*\n` — the `\n` consumed is the last newline of the maximal whitespace
  run after `cml` (greedy `\s*` backtracks to the rightmost `\n`); the run's
  remainder (necessarily `\n`-free whitespace) is left for what follows;
* each `(?:^[ \t]+\S.*\n?)` iteration requires a line start, a non-empty
  maximal run of blanks/tabs (shorter prefixes would leave `[ \t]` where `\S`
  must match), a non-whitespace character, then `.` (which excludes line
  terminators) greedily to the end of the line and an optional `\n`;
* the outer `*` is greedy and nothing follows it, so the first successful
  parse is final. -/

/-- The characters of the literal `Host`. -/
def hostLit : List Char := "Host".toList

/-- The characters of the literal `cml`. -/
def cmlLit : List Char := "cml".toList

/-- Matches `^Host\s+cml\s*\n` at a line start, returning
(consumed, remainder).  The remainder always begins at a line start. -/
def matchHostLine (s : List Char) : Option (List Char × List Char) :=
  match stripPrefixCh hostLit s with
  | none => none
  | some s1 =>
    let w1 := s1.takeWhile isJsSpace
    if w1 = [] then none
    else
      match stripPrefixCh cmlLit (s1.dropWhile isJsSpace) with
      | none => none
      | some s2 =>
        match splitLastNl (s2.takeWhile isJsSpace) with
        | none => none
        | some (a2, b2) =>
          some (hostLit ++ w1 ++ cmlLit ++ a2, b2 ++ s2.dropWhile isJsSpace)

/-- Matches one `^[ \t]+\S.*\n?` iteration at a line start, returning
(consumed, remainder, whether the trailing `\n` was consumed — i.e. whether
the remainder is again at a line start). -/
def matchContLine (s : List Char) : Option (List Char × List Char × Bool) :=
  let t := s.takeWhile isIndent
  if t = [] then none
  else
    match s.dropWhile isIndent with
    | [] => none
    | c :: cs =>
      if isJsSpace c then none
      else
        let body := cs.takeWhile (fun d => !(isLineTerm d))
        match cs.dropWhile (fun d => !(isLineTerm d)) with
        | '\n' :: rest2 => some (t ++ c :: (body ++ ['\n']), rest2, true)
        | rest => some (t ++ c :: body, rest, false)

/-- Fuelled loop for `(?:^[ \t]+\S.*\n?)*`: keeps consuming continuation lines
while the previous one ended in `\n` (otherwise the next `^` assertion fails).
Returns (consumed, remainder, whether the remainder is at a line start).
One unit of fuel is spent per iteration; each iteration consumes at least two
characters, so fuel `s.length` (used by the wrapper) is always sufficient. -/
def contLoopF : Nat → List Char → List Char × List Char × Bool
  | 0, s => ([], s, true)
  | f + 1, s =>
    match matchContLine s with
    | none => ([], s, true)
    | some (c, r, true) =>
      match contLoopF f r with
      | (c2, r2, ls) => (c ++ c2, r2, ls)
    | some (c, r, false) => (c, r, false)

/-- Continuation-line loop with sufficient fuel. -/
def contLoop (s : List Char) : List Char × List Char × Bool :=
  contLoopF s.length s

/-- Full pattern match attempt at a line start: `^Host\s+cml\s*\n` followed by
the continuation loop.  Returns (matched text, remainder, remainder at line
start?). -/
def matchBlockAt (s : List Char) : Option (List Char × List Char × Bool) :=
  match matchHostLine s with
  | none => none
  | some (a, r1) =>
    match contLoop r1 with
    | (b, r2, ls) => some (a ++ b, r2, ls)

/-- Prepends a character to the gap before the first match of a partial scan
result (or to the final gap when there is no match). -/
def gapCons (c : Char) :
    List (List Char × List Char) × List Char →
    List (List Char × List Char) × List Char
  | ([], g) => ([], c :: g)
  | ((g1, m) :: ps, g) => ((c :: g1, m) :: ps, g)

/-- Fuelled global scan (the `g` flag): walks the string left to right,
attempting the pattern at every line start (multiline `^`), continuing after
each match end exactly as the regex `lastIndex` does.  Returns the list of
(gap before match, match) pairs and the final gap; the input is the
concatenation of all gaps and matches in order.  Each step consumes at least
one character, so fuel `s.length` (used by the wrapper) is sufficient. -/
def scanAuxF : Nat → Bool → List Char → List (List Char × List Char) × List Char
  | 0, _, s => ([], s)
  | _ + 1, _, [] => ([], [])
  | f + 1, lineStart, c :: cs =>
    if lineStart then
      match matchBlockAt (c :: cs) with
      | some (m, rest, ls) =>
        match scanAuxF f ls rest with
        | (ps, g) => (([], m) :: ps, g)
      | none => gapCons c (scanAuxF f (isLineTerm c) cs)
    else gapCons c (scanAuxF f (isLineTerm c) cs)

/-- Global scan of a whole string (position 0 is a line start). -/
def scanBlocks (s : List Char) : List (List Char × List Char) × List Char :=
  scanAuxF s.length true s

/-- Number of matches of `HOST_CML_PATTERN` in `s`
(`s.match(pattern)?.length ?? 0`). -/
def countMatches (s : List Char) : Nat :=
  (scanBlocks s).1.length

/-- `s.replace(HOST_CML_PATTERN, "")`: all matches removed. -/
def removeAllMatches (s : List Char) : List Char :=
  ((scanBlocks s).1.map (fun p => p.1)).flatten ++ (scanBlocks s).2

/-- `s.replace(HOST_CML_PATTERN, nb)`: every match replaced by `nb`. -/
def replaceAllMatches (s nb : List Char) : List Char :=
  ((scanBlocks s).1.map (fun p => p.1 ++ nb)).flatten ++ (scanBlocks s).2

/-- Fuelled model of `s.replace(/\n{3,}/g, "\n\n")`: the scanner walks the
string; at a newline starting a maximal run of three or more newlines the
greedy quantifier consumes the entire run and emits two newlines, after which
scanning resumes past the run; at any other character (including newlines of
shorter runs, at which `\n{3,}` cannot match) the character is emitted and the
scan advances one position. -/
def collapseF : Nat → List Char → List Char
  | 0, s => s
  | _ + 1, [] => []
  | f + 1, c :: cs =>
    if c = '\n' && decide (2 ≤ (cs.takeWhile (fun d => d = '\n')).length) then
      '\n' :: '\n' :: collapseF f (cs.dropWhile (fun d => d = '\n'))
    else c :: collapseF f cs

/-- Newline-run collapse with sufficient fuel. -/
def collapseNewlines (s : List Char) : List Char :=
  collapseF s.length s

/-- Whether `s` contains a run of three or more consecutive newlines
(the trigger of the `\n{3,}` collapse). -/
def hasTripleNl : List Char → Bool
  | [] => false
  | c :: cs =>
    (c = '\n' && decide (2 ≤ (cs.takeWhile (fun d => d = '\n')).length)) ||
      hasTripleNl cs

/-- The first 38 characters of the freshly rendered block, up to where the
port is spliced in. -/
def nbPre : List Char := "Host cml\n  HostName localhost\n  Port ".toList

/-- The tail of the freshly rendered block, after the port. -/
def nbSuf : List Char := "\n  User cdsw".toList

/-- The freshly rendered block
`Host cml\n  HostName localhost\n  Port ${port}\n  User cdsw`
(no trailing newline). -/
def newBlock (port : List Char) : List Char :=
  nbPre ++ port ++ nbSuf

/-- The input guard `port && /^\d+$/.test(port)`: non-empty, all ASCII
digits. -/
def acceptPort (port : List Char) : Bool :=
  !(port.isEmpty) && port.all isDigitCh

/-- The de-duplication step: when the pattern matches more than once
(corruption from an earlier failed run), delete every occurrence and collapse
newline runs; otherwise leave the content unchanged. -/
def dedupStep (s : List Char) : List Char :=
  if 1 < countMatches s then collapseNewlines (removeAllMatches s) else s

/-- The upsert step: replace in place when the pattern still matches,
otherwise append the rendered block (separated by exactly one blank line from
non-empty content), or write it as the sole content. -/
def upsertStep (port s : List Char) : List Char :=
  if countMatches s ≠ 0 then replaceAllMatches s (newBlock port)
  else if jsTrim s ≠ [] then
    (if List.isSuffixOf ['\n', '\n'] s then s
     else if List.isSuffixOf ['\n'] s then s ++ ['\n']
     else s ++ ['\n', '\n']) ++ newBlock port ++ ['\n']
  else newBlock port ++ ['\n']

/-- `updateSshConfig(port)` on a configuration file whose current content is
`content`: returns (written content if any, returned boolean).  The guard
rejects before any filesystem access; otherwise the deduplication and upsert
steps produce the content written back, and the returned boolean is the
re-scan check `finalMatches.length === 1`. -/
def updateSshConfig (port content : List Char) : Option (List Char) × Bool :=
  if acceptPort port then
    let updated := upsertStep port (dedupStep content)
    (some updated, decide (countMatches updated = 1))
  else (none, false)

/-! Model of `src/idleMonitor.ts` (`startIdleMonitor`). -/

/-- The fixed poll interval `IDLE_POLL_INTERVAL_MS = 30_000`. -/
def IDLE_POLL_INTERVAL_MS : Nat := 30000

/-- JS `Math.round` on the (non-negative) values involved: half-up rounding,
`floor(q + 1/2)`. -/
def jsRound (q : ℚ) : ℤ := ⌊q + 1 / 2⌋

/-- The idle threshold computed by the monitor:
`Math.max(1, Math.round((timeoutMin * 60_000) / IDLE_POLL_INTERVAL_MS))`.
The result is at least 1, so it is returned as a natural number. -/
def idleThreshold (timeoutMin : ℚ) : Nat :=
  (max 1 (jsRound (timeoutMin * 60000 / (IDLE_POLL_INTERVAL_MS : ℚ)))).toNat

/-- `startIdleMonitor` guard: with `idleTimeoutMinutes` zero (falsy) or
negative the monitor is disabled and no timer is installed; otherwise the
timer runs with the computed threshold. -/
def startIdleMonitorThreshold (timeoutMin : ℚ) : Option Nat :=
  if timeoutMin ≤ 0 then none else some (idleThreshold timeoutMin)

/-- The monitor's mutable state: `firstConnectionSeen`, `consecutiveIdle`,
and whether the shutdown branch has fired (after which the interval timer is
cleared, so the state can no longer change). -/
structure IdleState where
  firstConnectionSeen : Bool
  consecutiveIdle : Nat
  shutdownFired : Bool
deriving DecidableEq

/-- The initial monitor state. -/
def idleInit : IdleState := ⟨false, 0, false⟩

/-- One timer tick: `active` is the poll result of `hasActiveConnections`.
An active connection records the first connection and resets the counter;
absence of a connection is ignored until a first connection has been seen,
and afterwards increments the counter, firing shutdown when it reaches the
threshold. -/
def idleTick (threshold : Nat) (st : IdleState) (active : Bool) : IdleState :=
  if st.shutdownFired then st
  else if active then ⟨true, 0, false⟩
  else if !st.firstConnectionSeen then st
  else
    let n := st.consecutiveIdle + 1
    ⟨true, n, decide (threshold ≤ n)⟩

/-- Runs the monitor over a sequence of poll observations. -/
def runIdleMonitor (threshold : Nat) (obs : List Bool) : IdleState :=
  obs.foldl (idleTick threshold) idleInit

/-! Model of the controller-side state channel (`src/auth.ts`:
`readState` and `waitForEndpointReady`). -/

/-- `EndpointState` as read from the state file.  `status` is kept as a raw
string because `JSON.parse` performs no validation; the loop compares it
against the literals `"ready"` and `"error"`. -/
structure EndpointState where
  status : List Char
  message : Option (List Char)
  port : Option (List Char)
  userAndHost : Option (List Char)
deriving DecidableEq

/-- The literal `ready`. -/
def readyLit : List Char := "ready".toList

/-- The literal `error`. -/
def errorLit : List Char := "error".toList

/-- `readState`: reads the file (`raw = none` models a failed read, caught by
the surrounding try/catch), trims it, treats an empty trimmed string as
not-yet-available, and otherwise parses it; `parse` models
`JSON.parse` + cast, returning `none` when `JSON.parse` throws (also caught).
The function always returns, never raises. -/
def readState (parse : List Char → Option EndpointState)
    (raw : Option (List Char)) : Option EndpointState :=
  match raw with
  | none => none
  | some content =>
    let t := jsTrim content
    if t = [] then none else parse t

/-- One poll tick observation of the wait loop: either the state file does not
exist, or it exists and `readState` returned the given result. -/
inductive Tick where
  | absent : Tick
  | present : Option EndpointState → Tick
deriving DecidableEq

/-- Failure modes of the readiness wait: an explicitly reported `error` state
(with its message) or exhaustion of the wait bound. -/
inductive WaitError where
  | reported : List Char → WaitError
  | timeout : WaitError
deriving DecidableEq

/-- `state.message || "Endpoint host reported an error."`: a missing or empty
message falls back to the default text. -/
def waitErrMsg (m : Option (List Char)) : List Char :=
  match m with
  | some s => if s = [] then "Endpoint host reported an error.".toList else s
  | none => "Endpoint host reported an error.".toList

/-- `waitForEndpointReady` over the sequence of poll-tick observations the
bounded loop performs (the list length is the number of ticks the
`timeoutMs` bound allows).  A `ready` record is returned; an `error` record
raises immediately with the record's message; anything else (missing file,
unreadable record, `starting` or unknown status) waits for the next tick;
running out of ticks is the distinct timeout failure.  The loop only reads:
it writes no state-file content. -/
def waitForEndpointReady : List Tick → Except WaitError EndpointState
  | [] => .error .timeout
  | Tick.absent :: rest => waitForEndpointReady rest
  | Tick.present none :: rest => waitForEndpointReady rest
  | Tick.present (some st) :: rest =>
    if st.status = readyLit then .ok st
    else if st.status = errorLit then .error (.reported (waitErrMsg st.message))
    else waitForEndpointReady rest

/-! Model of the orphan reaper (`src/auth.ts`: `killOrphanedHelperProcesses`). -/

/-- `result.split(/\r?\n/)`: split at each `\n`, removing a single `\r`
immediately preceding it.  `acc` holds the current segment reversed. -/
def splitCRLFAux (acc : List Char) : List Char → List (List Char)
  | [] => [acc.reverse]
  | '\n' :: rest =>
    (match acc with
     | '\r' :: acc2 => acc2.reverse
     | _ => acc.reverse) :: splitCRLFAux [] rest
  | c :: rest => splitCRLFAux (c :: acc) rest

/-- Splits process-enumeration output into lines, JS `split(/\r?\n/)`. -/
def splitCRLF (s : List Char) : List (List Char) :=
  splitCRLFAux [] s

/-- The pid selection pipeline: split into lines, trim each, keep the lines
matching `/^\d+$/`, convert to numbers, and drop falsy pids and the caller's
own pid. -/
def selectOrphanPids (stdout : List Char) (selfPid : Nat) : List Nat :=
  ((((splitCRLF stdout).map jsTrim).filter
      (fun l => !(l.isEmpty) && l.all isDigitCh)).map parseDecimal).filter
    (fun pid => !(pid == 0) && !(pid == selfPid))

/-- `killOrphanedHelperProcesses`: the set of pids it force-terminates.
`enum = none` models a rejected enumeration promise (PowerShell failure); the
surrounding try/catch swallows it and nothing is killed — the reaper itself
never raises. -/
def killOrphanedHelperProcesses (enum : Option (List Char)) (selfPid : Nat) :
    List Nat :=
  match enum with
  | none => []
  | some out => selectOrphanPids out selfPid

/-! Model of the Supervisor's readiness scanner. -/

/-- Tries the readiness grammar at the current position: the literal
`ssh -p ` followed by one or more digits, a space, and one or more
non-whitespace characters. -/
def tryReadinessHere (s : List Char) : Option (List Char × List Char) :=
  match stripPrefixCh "ssh -p ".toList s with
  | none => none
  | some r1 =>
    let digits := r1.takeWhile isDigitCh
    if digits = [] then none
    else
      match r1.dropWhile isDigitCh with
      | ' ' :: r2 =>
        let tok := r2.takeWhile (fun c => !(isJsSpace c))
        if tok = [] then none else some (digits, tok)
      | _ => none

/-- Modelled from the spec: the Supervisor process (`out/endpointHost.js`) is
not among the provided sources; its readiness scanner is modelled from the
spec's marker grammar — the case-sensitive substring
`ssh -p <digits> <non-whitespace>` anywhere in a line, `<digits>` binding to
`port` and the following token to `userAndHost` (leftmost match). -/
def scanReadiness : List Char → Option (List Char × List Char)
  | [] => none
  | c :: cs =>
    match tryReadinessHere (c :: cs) with
    | some r => some r
    | none => scanReadiness cs

/-- Modelled from the spec: on the first output line matching the readiness
marker the Supervisor writes a `ready` state with the captured `port` and
`userAndHost` and stops treating further lines as readiness candidates. -/
def supervisorScanLines : List (List Char) → Option EndpointState
  | [] => none
  | l :: ls =>
    match scanReadiness l with
    | some (p, uh) => some ⟨readyLit, none, some p, some uh⟩
    | none => supervisorScanLines ls

/-! Helper lemmas for the idle monitor. -/

theorem foldl_idleTick_frozen (th : Nat) (st : IdleState)
    (hs : st.shutdownFired = true) (obs : List Bool) :
    obs.foldl (idleTick th) st = st := by
  induction obs with
  | nil => rfl
  | cons b bs ih =>
    have hstep : idleTick th st b = st := by
      simp [idleTick, hs]
    simp [List.foldl, hstep, ih]

theorem foldl_idleTick_replicate (th : Nat) (k : Nat) :
    ∀ j, j < th →
      (List.replicate k false).foldl (idleTick th) ⟨true, j, false⟩ =
        if j + k < th then ⟨true, j + k, false⟩ else ⟨true, th, true⟩ := by
  induction k with
  | zero =>
    intro j hj
    simp [List.replicate, List.foldl, Nat.lt_of_lt_of_le hj (Nat.le_refl th), hj]
  | succ k ih =>
    intro j hj
    rw [List.replicate_succ]
    have hstep : idleTick th ⟨true, j, false⟩ false =
        ⟨true, j + 1, decide (th ≤ j + 1)⟩ := by
      simp [idleTick]
    by_cases hth : th ≤ j + 1
    · have hj1 : j + 1 = th := Nat.le_antisymm hj hth
      rw [List.foldl_cons, hstep]
      simp only [decide_eq_true hth]
      rw [foldl_idleTick_frozen th ⟨true, j + 1, true⟩ rfl]
      have : ¬ j + (k + 1) < th := by omega
      simp [this, hj1]
    · have hd : decide (th ≤ j + 1) = false := by simp [hth]
      rw [List.foldl_cons, hstep, hd]
      have hj1 : j + 1 < th := by omega
      rw [ih (j + 1) hj1]
      have harith : j + 1 + k = j + (k + 1) := by omega
      simp [harith]

/-- C3: for every idle-timeout `t > 0` the monitor is enabled, yet over any
sequence of polls that never observes an active connection it never fires
shutdown and never increments the idle counter — idle time before the first
connection is not counted. -/
theorem C3_no_shutdown_before_first_connection (t : ℚ) (ht : 0 < t)
    (obs : List Bool) (hobs : ∀ b ∈ obs, b = false) :
    startIdleMonitorThreshold t = some (idleThreshold t) ∧
      runIdleMonitor (idleThreshold t) obs = idleInit := by
  refine ⟨by simp [startIdleMonitorThreshold, not_le.mpr ht], ?_⟩
  induction obs with
  | nil => rfl
  | cons b bs ih =>
    have hb : b = false := hobs b (by simp)
    have hstep : idleTick (idleThreshold t) idleInit b = idleInit := by
      simp [idleTick, hb, idleInit]
    simp only [runIdleMonitor, List.foldl_cons, hstep]
    exact ih (fun d hd => hobs d (by simp [hd]))

/-- C3 witness: a concrete enabled monitor with three idle polls stays in the
initial state. -/
theorem C3_no_shutdown_before_first_connection_witness :
    startIdleMonitorThreshold 1 = some (idleThreshold 1) ∧
      runIdleMonitor (idleThreshold 1) [false, false, false] = idleInit :=
  C3_no_shutdown_before_first_connection 1 (by norm_num)
    [false, false, false] (by decide)

/-- A poll tick that carries no terminal status: missing file, unreadable
record, or a status other than `ready`/`error`. -/
def tickNonTerminal : Tick → Bool
  | Tick.absent => true
  | Tick.present none => true
  | Tick.present (some st) =>
    !(st.status == readyLit) && !(st.status == errorLit)

/-- C5: on a tick whose record parses with status `ready` the wait returns
that record; on a tick with status `error` it fails immediately with the
record's message; a tick sequence with no terminal status exhausts the bound
and fails with the timeout error, which is distinct from every reported
error; the wait itself writes nothing (its model only consumes
observations). -/
theorem C5_wait_terminal_behaviour (st : EndpointState)
    (rest ticks : List Tick) (msg : List Char) :
    (st.status = readyLit →
      waitForEndpointReady (Tick.present (some st) :: rest) = .ok st) ∧
    (st.status = errorLit →
      waitForEndpointReady (Tick.present (some st) :: rest) =
        .error (.reported (waitErrMsg st.message))) ∧
    ((∀ t ∈ ticks, tickNonTerminal t = true) →
      waitForEndpointReady ticks = .error .timeout) ∧
    (WaitError.timeout ≠ WaitError.reported msg) := by
  refine ⟨?_, ?_, ?_, by intro h; cases h⟩
  · intro h
    simp [waitForEndpointReady, h]
  · intro h
    have hne : st.status ≠ readyLit := by
      rw [h]
      decide
    simp only [waitForEndpointReady, h,
      if_neg (by decide : ¬ errorLit = readyLit), if_pos trivial]
  · intro hall
    induction ticks with
    | nil => rfl
    | cons t ts ih =>
      have ht : tickNonTerminal t = true := hall t (by simp)
      have hts : waitForEndpointReady ts = .error .timeout :=
        ih (fun d hd => hall d (by simp [hd]))
      cases t with
      | absent => simpa [waitForEndpointReady] using hts
      | present ost =>
        cases ost with
        | none => simpa [waitForEndpointReady] using hts
        | some st2 =>
          simp only [tickNonTerminal, Bool.and_eq_true, Bool.not_eq_true',
            beq_eq_false_iff_ne, ne_eq] at ht
          simpa [waitForEndpointReady, ht.1, ht.2] using hts

/-- C5 witness: concrete ready, error and timeout runs. -/
theorem C5_wait_terminal_behaviour_witness :
    waitForEndpointReady
        [Tick.present (some ⟨readyLit, none, some "2223".toList, none⟩)] =
      .ok ⟨readyLit, none, some "2223".toList, none⟩ ∧
    waitForEndpointReady
        [Tick.present (some ⟨errorLit, some "boom".toList, none, none⟩)] =
      .error (.reported "boom".toList) ∧
    waitForEndpointReady [Tick.absent, Tick.present none] =
      .error .timeout := by
  refine ⟨?_, ?_, ?_⟩
  · exact (C5_wait_terminal_behaviour ⟨readyLit, none, some "2223".toList, none⟩
      [] [] []).1 rfl
  · have h := (C5_wait_terminal_behaviour
      ⟨errorLit, some "boom".toList, none, none⟩ [] [] []).2.1 rfl
    simpa [waitErrMsg] using h
  · exact (C5_wait_terminal_behaviour ⟨readyLit, none, none, none⟩ []
      [Tick.absent, Tick.present none] []).2.2.1 (by decide)

/-- C6: a state-file read that fails, trims to empty, or does not parse as
JSON yields `null` from `readState` rather than an exception, and the wait
loop treats such a tick as not yet available, continuing with the remaining
ticks. -/
theorem C6_unreadable_state_keeps_waiting
    (parse : List Char → Option EndpointState) (content : List Char)
    (rest : List Tick)
    (h : jsTrim content = [] ∨ parse (jsTrim content) = none) :
    readState parse (some content) = none ∧
      readState parse none = none ∧
      waitForEndpointReady (Tick.present none :: rest) =
        waitForEndpointReady rest ∧
      waitForEndpointReady (Tick.absent :: rest) = waitForEndpointReady rest := by
  refine ⟨?_, rfl, rfl, rfl⟩
  rcases h with h | h
  · simp [readState, h]
  · by_cases ht : jsTrim content = []
    · simp [readState, ht]
    · simp [readState, ht, h]

/-- C6 witness: a non-JSON content with an always-failing parse, inside a
two-tick wait. -/
theorem C6_unreadable_state_keeps_waiting_witness :
    readState (fun _ => none) (some "not json".toList) = none ∧
      readState (fun _ => none) none = none ∧
      waitForEndpointReady [Tick.present none, Tick.absent] =
        waitForEndpointReady [Tick.absent] ∧
      waitForEndpointReady [Tick.absent, Tick.absent] =
        waitForEndpointReady [Tick.absent] :=
  C6_unreadable_state_keeps_waiting (fun _ => none) "not json".toList
    [Tick.absent] (Or.inr rfl)

/-- C7: the orphan reaper's kill set never contains the caller's own process
id, for every enumeration output — including outputs listing that id — and an
enumeration failure is swallowed, killing nothing and raising nothing. -/
theorem C7_reaper_excludes_self (enum : Option (List Char)) (selfPid : Nat) :
    selfPid ∉ killOrphanedHelperProcesses enum selfPid ∧
      killOrphanedHelperProcesses none selfPid = [] := by
  refine ⟨?_, rfl⟩
  cases enum with
  | none => simp [killOrphanedHelperProcesses]
  | some out =>
    simp only [killOrphanedHelperProcesses, selectOrphanPids]
    intro hmem
    have h := (List.mem_filter.mp hmem).2
    simp at h

/-- C9: (Supervisor modelled from the spec) the readiness scanner applied to
the line `Forwarding: ssh -p 2223 cdsw@127.0.0.1 ready` captures port `2223`
and userAndHost `cdsw@127.0.0.1`, and the Supervisor transitions to a `ready`
state carrying exactly those fields. -/
theorem C9_readiness_marker :
    scanReadiness "Forwarding: ssh -p 2223 cdsw@127.0.0.1 ready".toList =
        some ("2223".toList, "cdsw@127.0.0.1".toList) ∧
      supervisorScanLines
          ["Forwarding: ssh -p 2223 cdsw@127.0.0.1 ready".toList] =
        some ⟨readyLit, none, some "2223".toList,
          some "cdsw@127.0.0.1".toList⟩ := by
  constructor <;> rfl

/-- C10: a port that is empty or contains a non-digit character makes
`updateSshConfig` return `false` with no content written. -/
theorem C10_port_guard (port content : List Char)
    (h : port = [] ∨ ∃ c ∈ port, isDigitCh c = false) :
    updateSshConfig port content = (none, false) := by
  have hacc : acceptPort port = false := by
    rcases h with rfl | ⟨c, hc, hcd⟩
    · rfl
    · simp only [acceptPort, Bool.and_eq_false_iff]
      right
      apply Bool.eq_false_iff.mpr
      intro hall
      rw [List.all_eq_true] at hall
      have := hall c hc
      rw [hcd] at this
      exact absurd this (by simp)
  simp [updateSshConfig, hacc]

/-- C10 witness: the port `12a` is rejected regardless of the existing
content. -/
theorem C10_port_guard_witness :
    updateSshConfig "12a".toList "Host cml\n  Port 9\n".toList =
      (none, false) :=
  C10_port_guard "12a".toList "Host cml\n  Port 9\n".toList
    (Or.inr ⟨'a', by decide, by decide⟩)

/-- C4 counterexample: at `idleTimeoutMinutes = 9/8` (the double `1.125`,
exactly representable, with exact intermediate arithmetic) the code computes
threshold `max(1, round(2.25)) = 2`, while the claimed
`ceil(idleTimeoutMinutes * 60000 / pollIntervalMs)` is `3`. -/
theorem C4_threshold_counterexample :
    idleThreshold (9 / 8 : ℚ) = 2 ∧
      ⌈((9 / 8 : ℚ) * 60000 / (IDLE_POLL_INTERVAL_MS : ℚ))⌉ = 3 ∧
      (2 : ℕ) ≠ 3 := by
  refine ⟨?_, ?_, by decide⟩
  · have h1 : (9 / 8 : ℚ) * 60000 / (IDLE_POLL_INTERVAL_MS : ℚ) + 1 / 2 =
        11 / 4 := by
      norm_num [IDLE_POLL_INTERVAL_MS]
    have h2 : ⌊(11 / 4 : ℚ)⌋ = 2 := by
      rw [Int.floor_eq_iff]
      norm_num
    rw [idleThreshold, jsRound, h1, h2]
    decide
  · have h1 : (9 / 8 : ℚ) * 60000 / (IDLE_POLL_INTERVAL_MS : ℚ) = 9 / 4 := by
      norm_num [IDLE_POLL_INTERVAL_MS]
    rw [h1, Int.ceil_eq_iff]
    constructor <;> norm_num

/-- C4 amended: the threshold is `max(1, Math.round(t * 60000 / 30000))`
(half-up rounding), which for every positive integer `idleTimeoutMinutes`
coincides with the claimed `ceil(t * 60000 / pollIntervalMs)` and equals
`2 * t`; the shutdown transition fires exactly upon reaching that many
consecutive idle polls after a first connection, and not one poll earlier. -/
theorem C4_threshold_amended (t : Nat) (ht : 1 ≤ t) :
    idleThreshold (t : ℚ) = 2 * t ∧
      ⌈((t : ℚ) * 60000 / (IDLE_POLL_INTERVAL_MS : ℚ))⌉ = 2 * t ∧
      (runIdleMonitor (idleThreshold (t : ℚ))
          (true :: List.replicate (2 * t) false)).shutdownFired = true ∧
      (runIdleMonitor (idleThreshold (t : ℚ))
          (true :: List.replicate (2 * t - 1) false)).shutdownFired = false := by
  have hq : (t : ℚ) * 60000 / (IDLE_POLL_INTERVAL_MS : ℚ) =
      ((2 * t : ℤ) : ℚ) := by
    rw [IDLE_POLL_INTERVAL_MS]
    push_cast
    field_simp
    ring
  have hth : idleThreshold (t : ℚ) = 2 * t := by
    rw [idleThreshold, jsRound, hq, Int.floor_int_add]
    have hhalf : ⌊(1 / 2 : ℚ)⌋ = 0 := by
      rw [Int.floor_eq_iff]
      norm_num
    rw [hhalf]
    omega
  refine ⟨hth, ?_, ?_, ?_⟩
  · rw [hq, Int.ceil_intCast]
  · rw [hth]
    show (List.foldl (idleTick (2 * t))
      (idleTick (2 * t) idleInit true) (List.replicate (2 * t) false)).shutdownFired = true
    have hstep : idleTick (2 * t) idleInit true = ⟨true, 0, false⟩ := by
      simp [idleTick, idleInit]
    rw [hstep, foldl_idleTick_replicate (2 * t) (2 * t) 0 (by omega)]
    simp
  · rw [hth]
    show (List.foldl (idleTick (2 * t))
      (idleTick (2 * t) idleInit true)
      (List.replicate (2 * t - 1) false)).shutdownFired = false
    have hstep : idleTick (2 * t) idleInit true = ⟨true, 0, false⟩ := by
      simp [idleTick, idleInit]
    rw [hstep, foldl_idleTick_replicate (2 * t) (2 * t - 1) 0 (by omega)]
    have hcond : 0 + (2 * t - 1) < 2 * t := by omega
    rw [if_pos hcond]

/-- C4 witness: the amended statement at one minute. -/
theorem C4_threshold_amended_witness :
    idleThreshold (1 : ℚ) = 2 ∧
      ⌈((1 : ℚ) * 60000 / (IDLE_POLL_INTERVAL_MS : ℚ))⌉ = 2 ∧
      (runIdleMonitor (idleThreshold (1 : ℚ))
          (true :: List.replicate 2 false)).shutdownFired = true ∧
      (runIdleMonitor (idleThreshold (1 : ℚ))
          (true :: List.replicate 1 false)).shutdownFired = false := by
  have h := C4_threshold_amended 1 (by decide)
  simpa using h

/-! Helper lemmas for the newline-run collapse. -/

theorem collapseF_stable (f₁ : Nat) : ∀ (f₂ : Nat) (s : List Char),
    s.length ≤ f₁ → s.length ≤ f₂ → collapseF f₁ s = collapseF f₂ s := by
  induction f₁ with
  | zero =>
    intro f₂ s h₁ h₂
    have hs : s = [] := List.eq_nil_of_length_eq_zero (Nat.le_zero.mp h₁)
    subst hs
    cases f₂ <;> rfl
  | succ f ih =>
    intro f₂ s h₁ h₂
    cases s with
    | nil => cases f₂ <;> rfl
    | cons c cs =>
      cases f₂ with
      | zero => simp at h₂
      | succ g =>
        simp only [List.length_cons, Nat.succ_le_succ_iff] at h₁ h₂
        simp only [collapseF]
        by_cases hb :
            (c = '\n' && decide (2 ≤ (cs.takeWhile (fun d => d = '\n')).length)) = true
        · rw [if_pos hb, if_pos hb]
          have hr : (cs.dropWhile (fun d => d = '\n')).length ≤ cs.length :=
            length_dropWhileLe _ _
          rw [ih g (cs.dropWhile (fun d => d = '\n'))
            (le_trans hr h₁) (le_trans hr h₂)]
        · rw [if_neg hb, if_neg hb]
          rw [ih g cs h₁ h₂]

theorem collapseNewlines_cons_big {c : Char} {cs : List Char}
    (h : (c = '\n' && decide (2 ≤ (cs.takeWhile (fun d => d = '\n')).length)) = true) :
    collapseNewlines (c :: cs) =
      '\n' :: '\n' :: collapseNewlines (cs.dropWhile (fun d => d = '\n')) := by
  show collapseF (c :: cs).length (c :: cs) = _
  simp only [List.length_cons, collapseF]
  rw [if_pos h]
  have hr : (cs.dropWhile (fun d => d = '\n')).length ≤ cs.length :=
    length_dropWhileLe _ _
  rw [collapseF_stable cs.length (cs.dropWhile (fun d => d = '\n')).length
    (cs.dropWhile (fun d => d = '\n')) hr (Nat.le_refl _)]
  rfl

theorem collapseNewlines_cons_small {c : Char} {cs : List Char}
    (h : ¬ (c = '\n' && decide (2 ≤ (cs.takeWhile (fun d => d = '\n')).length)) = true) :
    collapseNewlines (c :: cs) = c :: collapseNewlines cs := by
  show collapseF (c :: cs).length (c :: cs) = _
  simp only [List.length_cons, collapseF]
  rw [if_neg h]
  rfl

theorem collapseNewlines_cons_head (c : Char) (cs : List Char) :
    ∃ tl, collapseNewlines (c :: cs) = c :: tl := by
  by_cases hb :
      (c = '\n' && decide (2 ≤ (cs.takeWhile (fun d => d = '\n')).length)) = true
  · have hc : c = '\n' := by
      have := (Bool.and_eq_true _ _).mp hb
      exact of_decide_eq_true this.1
    subst hc
    exact ⟨'\n' :: collapseNewlines (cs.dropWhile (fun d => d = '\n')),
      collapseNewlines_cons_big hb⟩
  · exact ⟨collapseNewlines cs, collapseNewlines_cons_small hb⟩

/-- The collapse leaves content with no triple-newline run unchanged. -/
theorem collapseNewlines_of_no_triple (s : List Char)
    (h : hasTripleNl s = false) : collapseNewlines s = s := by
  cases s with
  | nil => rfl
  | cons c cs =>
    simp only [hasTripleNl, Bool.or_eq_false_iff] at h
    rw [collapseNewlines_cons_small (by rw [h.1]; exact Bool.false_ne_true)]
    rw [collapseNewlines_of_no_triple cs h.2]
termination_by s.length

/-- A short leading newline run stays short after the collapse. -/
theorem takeWhile_nl_collapse_short {cs : List Char}
    (h : (cs.takeWhile (fun d => d = '\n')).length ≤ 1) :
    ((collapseNewlines cs).takeWhile (fun d => d = '\n')).length ≤ 1 := by
  cases cs with
  | nil => simp [collapseNewlines, collapseF]
  | cons d ds =>
    by_cases hd : d = '\n'
    · subst hd
      have hds2 : ds.takeWhile (fun d => d = '\n') = [] := by
        simp only [List.takeWhile, decide_True, List.length_cons] at h
        have : (ds.takeWhile (fun d => d = '\n')).length = 0 := by omega
        exact List.eq_nil_of_length_eq_zero this
      have hguard : ¬ (('\n' : Char) = '\n' &&
          decide (2 ≤ (ds.takeWhile (fun d => d = '\n')).length)) = true := by
        rw [hds2]
        simp
      rw [collapseNewlines_cons_small hguard]
      cases ds with
      | nil => simp [collapseNewlines, collapseF, List.takeWhile]
      | cons e es =>
        have he : ¬ e = '\n' := by
          intro hee
          subst hee
          simp [List.takeWhile] at hds2
        obtain ⟨tl, htl⟩ := collapseNewlines_cons_head e es
        rw [htl]
        simp [List.takeWhile, he]
    · obtain ⟨tl, htl⟩ := collapseNewlines_cons_head d ds
      rw [htl]
      simp [List.takeWhile, hd]

/-- The collapsed output never contains a triple-newline run. -/
theorem hasTripleNl_collapse (s : List Char) :
    hasTripleNl (collapseNewlines s) = false := by
  cases s with
  | nil => rfl
  | cons c cs =>
    by_cases hb :
        (c = '\n' && decide (2 ≤ (cs.takeWhile (fun d => d = '\n')).length)) = true
    · rw [collapseNewlines_cons_big hb]
      have hihrest : hasTripleNl
          (collapseNewlines (cs.dropWhile (fun d => d = '\n'))) = false :=
        hasTripleNl_collapse (cs.dropWhile (fun d => d = '\n'))
      have hhead : ((collapseNewlines (cs.dropWhile (fun d => d = '\n'))).takeWhile
          (fun d => d = '\n')).length = 0 := by
        cases hrw : cs.dropWhile (fun d => d = '\n') with
        | nil => simp [collapseNewlines, collapseF, List.takeWhile]
        | cons e es =>
          have he := head_dropWhile_not hrw
          simp only [decide_eq_false_iff_not] at he
          obtain ⟨tl, htl⟩ := collapseNewlines_cons_head e es
          rw [htl]
          simp [List.takeWhile, he]
      simp only [hasTripleNl, List.takeWhile, decide_True, Bool.true_and,
        List.length_cons, hhead, hihrest, Bool.or_eq_false_iff]
      refine ⟨by simp, by simp, trivial⟩
    · rw [collapseNewlines_cons_small hb]
      have hih : hasTripleNl (collapseNewlines cs) = false :=
        hasTripleNl_collapse cs
      by_cases hc : c = '\n'
      · subst hc
        have hrun : (cs.takeWhile (fun d => d = '\n')).length ≤ 1 := by
          by_contra hgt
          push_neg at hgt
          exact hb (by simp; omega)
        have hshort := takeWhile_nl_collapse_short hrun
        simp only [hasTripleNl, hih, Bool.or_eq_false_iff]
        exact ⟨by simp only [decide_True, Bool.true_and,
          decide_eq_false_iff_not]; omega, trivial⟩
      · simp only [hasTripleNl, hih, Bool.or_eq_false_iff]
        exact ⟨by simp [hc], trivial⟩
termination_by s.length
decreasing_by
  · simp only [List.length_cons]
    exact Nat.lt_succ_of_le (length_dropWhileLe _ _)
  · simp

/-- C8: in the deduplication step, more than one occurrence triggers deletion
of every occurrence followed by the newline collapse, which rewrites exactly
the runs of three or more newline characters (3+ blank-line characters) to
two newlines — rendering as at most one blank line — leaves content without
such a run byte-identical, and leaves no such run in its output. -/
theorem C8_dedup_collapse_runs (content s cs : List Char)
    (hcount : 1 < countMatches content)
    (hrun : 2 ≤ (cs.takeWhile (fun d => d = '\n')).length)
    (hno : hasTripleNl s = false) :
    dedupStep content = collapseNewlines (removeAllMatches content) ∧
      collapseNewlines ('\n' :: cs) =
        '\n' :: '\n' :: collapseNewlines (cs.dropWhile (fun d => d = '\n')) ∧
      collapseNewlines s = s ∧
      hasTripleNl (collapseNewlines content) = false := by
  refine ⟨?_, ?_, ?_, ?_⟩
  · simp [dedupStep, hcount]
  · exact collapseNewlines_cons_big (by simp [hrun])
  · exact collapseNewlines_of_no_triple s hno
  · exact hasTripleNl_collapse content

/-- C8 witness: a two-block corrupted file, a run of three newlines, and a
run-free string. -/
theorem C8_dedup_collapse_runs_witness :
    dedupStep "Host cml\n  A\nHost cml\n  B\na\n\n\n\nb".toList =
        collapseNewlines
          (removeAllMatches "Host cml\n  A\nHost cml\n  B\na\n\n\n\nb".toList) ∧
      collapseNewlines ('\n' :: "\n\nx".toList) =
        '\n' :: '\n' :: collapseNewlines ("\n\nx".toList.dropWhile
          (fun d => d = '\n')) ∧
      collapseNewlines "a\n\nb".toList = "a\n\nb".toList ∧
      hasTripleNl (collapseNewlines
        "Host cml\n  A\nHost cml\n  B\na\n\n\n\nb".toList) = false :=
  C8_dedup_collapse_runs "Host cml\n  A\nHost cml\n  B\na\n\n\n\nb".toList
    "a\n\nb".toList "\n\nx".toList (by decide) (by decide) (by decide)

/-! Helper lemmas for the block scanner loops. -/

theorem matchContLine_nil : matchContLine [] = none := rfl

theorem matchBlockAt_nil : matchBlockAt [] = none := rfl

theorem matchContLine_rest_lt {s c r : List Char} {b : Bool}
    (h : matchContLine s = some (c, r, b)) : r.length < s.length := by
  simp only [matchContLine] at h
  split at h
  · cases h
  · split at h
    · cases h
    · rename_i c1 cs1 hD
      split at h
      · cases h
      · have hDlen : (s.dropWhile isIndent).length ≤ s.length :=
          length_dropWhileLe _ _
        rw [hD] at hDlen
        simp only [List.length_cons] at hDlen
        have hrest : (cs1.dropWhile (fun d => !(isLineTerm d))).length ≤
            cs1.length := length_dropWhileLe _ _
        split at h
        · rename_i rest2 hr
          simp only [Option.some.injEq, Prod.mk.injEq] at h
          obtain ⟨-, hr2, -⟩ := h
          subst hr2
          rw [hr] at hrest
          simp only [List.length_cons] at hrest
          omega
        · simp only [Option.some.injEq, Prod.mk.injEq] at h
          obtain ⟨-, hr2, -⟩ := h
          subst hr2
          omega

theorem contLoopF_stable (f₁ : Nat) : ∀ (f₂ : Nat) (s : List Char),
    s.length ≤ f₁ → s.length ≤ f₂ → contLoopF f₁ s = contLoopF f₂ s := by
  induction f₁ with
  | zero =>
    intro f₂ s h₁ h₂
    have hs : s = [] := List.eq_nil_of_length_eq_zero (Nat.le_zero.mp h₁)
    subst hs
    cases f₂ <;> simp [contLoopF, matchContLine_nil]
  | succ f ih =>
    intro f₂ s h₁ h₂
    cases s with
    | nil => cases f₂ <;> simp [contLoopF, matchContLine_nil]
    | cons a as =>
      cases f₂ with
      | zero => simp at h₂
      | succ g =>
        simp only [List.length_cons, Nat.succ_le_succ_iff] at h₁ h₂
        simp only [contLoopF]
        cases hm : matchContLine (a :: as) with
        | none => rfl
        | some trip =>
          obtain ⟨c, r, b⟩ := trip
          cases b with
          | false => rfl
          | true =>
            have hlt : r.length < as.length + 1 := by
              simpa using matchContLine_rest_lt hm
            dsimp only
            rw [ih g r (by omega) (by omega)]

theorem contLoop_none {s : List Char} (h : matchContLine s = none) :
    contLoop s = ([], s, true) := by
  cases s with
  | nil => rfl
  | cons a as => simp only [contLoop, List.length_cons, contLoopF, h]

theorem contLoop_step_true {s c r : List Char}
    (h : matchContLine s = some (c, r, true)) :
    contLoop s = (c ++ (contLoop r).1, (contLoop r).2.1, (contLoop r).2.2) := by
  cases s with
  | nil => rw [matchContLine_nil] at h; cases h
  | cons a as =>
    have hlt : r.length < as.length + 1 := by
      simpa using matchContLine_rest_lt h
    simp only [contLoop, List.length_cons, contLoopF, h]
    rw [contLoopF_stable as.length r.length r (by omega) (Nat.le_refl _)]

theorem contLoop_step_false {s c r : List Char}
    (h : matchContLine s = some (c, r, false)) :
    contLoop s = (c, r, false) := by
  cases s with
  | nil => rw [matchContLine_nil] at h; cases h
  | cons a as => simp only [contLoop, List.length_cons, contLoopF, h]

theorem scanAuxF_nil (f : Nat) (ls : Bool) : scanAuxF f ls [] = ([], []) := by
  cases f <;> rfl

/-- A string consumed in full by a single pattern match scans to exactly that
one match with empty gaps. -/
theorem scanBlocks_single {s m : List Char} {ls : Bool}
    (h : matchBlockAt s = some (m, [], ls)) :
    scanBlocks s = ([([], m)], []) := by
  cases s with
  | nil => rw [matchBlockAt_nil] at h; cases h
  | cons a as =>
    simp only [scanBlocks, List.length_cons, scanAuxF, h, scanAuxF_nil,
      if_true]

/-! Symbolic evaluation of the scanner on the freshly rendered block:
the port digits are kept abstract, everything else is concrete. -/

theorem matchHostLine_nbPre (tail : List Char) :
    matchHostLine (nbPre ++ tail) =
      some ("Host cml\n".toList,
        "  HostName localhost\n  Port ".toList ++ tail) := by
  have h1 : stripPrefixCh hostLit (nbPre ++ tail) =
      some (" cml\n  HostName localhost\n  Port ".toList ++ tail) :=
    stripPrefixCh_append (by decide)
  have hne : (" cml\n  HostName localhost\n  Port ".toList).dropWhile isJsSpace ≠
      [] := by decide
  have h2 : (" cml\n  HostName localhost\n  Port ".toList ++ tail).takeWhile
      isJsSpace = [' '] := by
    rw [takeWhile_append_stop tail hne]
    decide
  have h3 : (" cml\n  HostName localhost\n  Port ".toList ++ tail).dropWhile
      isJsSpace = "cml\n  HostName localhost\n  Port ".toList ++ tail := by
    rw [dropWhile_append_stop tail hne]
    have hd : (" cml\n  HostName localhost\n  Port ".toList).dropWhile isJsSpace =
        "cml\n  HostName localhost\n  Port ".toList := by decide
    rw [hd]
  have h4 : stripPrefixCh cmlLit
      ("cml\n  HostName localhost\n  Port ".toList ++ tail) =
      some ("\n  HostName localhost\n  Port ".toList ++ tail) :=
    stripPrefixCh_append (by decide)
  have hne2 : ("\n  HostName localhost\n  Port ".toList).dropWhile isJsSpace ≠
      [] := by decide
  have h5 : ("\n  HostName localhost\n  Port ".toList ++ tail).takeWhile
      isJsSpace = ['\n', ' ', ' '] := by
    rw [takeWhile_append_stop tail hne2]
    decide
  have h6 : splitLastNl ['\n', ' ', ' '] = some (['\n'], [' ', ' ']) := by decide
  have h7 : ("\n  HostName localhost\n  Port ".toList ++ tail).dropWhile
      isJsSpace = "HostName localhost\n  Port ".toList ++ tail := by
    rw [dropWhile_append_stop tail hne2]
    have hd : ("\n  HostName localhost\n  Port ".toList).dropWhile isJsSpace =
        "HostName localhost\n  Port ".toList := by decide
    rw [hd]
  simp only [matchHostLine, h1, h2, h3, h4, h5, h6, h7]
  rw [if_neg (by decide : ¬([' '] : List Char) = [])]
  have ha : hostLit ++ [' '] ++ cmlLit ++ ['\n'] = "Host cml\n".toList := by
    decide
  have hb : ([' ', ' '] : List Char) ++ "HostName localhost\n  Port ".toList =
      "  HostName localhost\n  Port ".toList := by decide
  rw [ha, ← List.append_assoc, hb]

theorem matchContLine_hostNameLine (tail : List Char) :
    matchContLine ("  HostName localhost\n".toList ++ tail) =
      some ("  HostName localhost\n".toList, tail, true) := by
  have hne : ("  HostName localhost\n".toList).dropWhile isIndent ≠ [] := by
    decide
  have h1 : ("  HostName localhost\n".toList ++ tail).takeWhile isIndent =
      [' ', ' '] := by
    rw [takeWhile_append_stop tail hne]
    decide
  have h2 : ("  HostName localhost\n".toList ++ tail).dropWhile isIndent =
      'H' :: ("ostName localhost\n".toList ++ tail) := by
    rw [dropWhile_append_stop tail hne]
    have hd : ("  HostName localhost\n".toList).dropWhile isIndent =
        'H' :: "ostName localhost\n".toList := by decide
    rw [hd]
    rfl
  have hne2 : ("ostName localhost\n".toList).dropWhile
      (fun d => !(isLineTerm d)) ≠ [] := by decide
  have h3 : ("ostName localhost\n".toList ++ tail).takeWhile
      (fun d => !(isLineTerm d)) = "ostName localhost".toList := by
    rw [takeWhile_append_stop tail hne2]
    decide
  have h4 : ("ostName localhost\n".toList ++ tail).dropWhile
      (fun d => !(isLineTerm d)) = '\n' :: tail := by
    rw [dropWhile_append_stop tail hne2]
    have hd : ("ostName localhost\n".toList).dropWhile
        (fun d => !(isLineTerm d)) = ['\n'] := by decide
    rw [hd]
    rfl
  simp only [matchContLine, h1, h2, h3, h4]
  rw [if_neg (by decide : ¬([' ', ' '] : List Char) = [])]
  rw [if_neg (by decide : ¬ isJsSpace 'H' = true)]
  have ha : ([' ', ' '] : List Char) ++
      'H' :: ("ostName localhost".toList ++ ['\n']) =
      "  HostName localhost\n".toList := by decide
  rw [ha]

theorem matchContLine_portLine (port tail : List Char)
    (hd : ∀ c ∈ port, isDigitCh c = true) :
    matchContLine ("  Port ".toList ++ (port ++ ('\n' :: tail))) =
      some ("  Port ".toList ++ port ++ ['\n'], tail, true) := by
  have hnt : ∀ c ∈ port, (fun d => !(isLineTerm d)) c = true := by
    intro c hc
    simp [isDigitCh_not_lineTerm (hd c hc)]
  have hne : ("  Port ".toList).dropWhile isIndent ≠ [] := by decide
  have h1 : ("  Port ".toList ++ (port ++ ('\n' :: tail))).takeWhile isIndent =
      [' ', ' '] := by
    rw [takeWhile_append_stop _ hne]
    decide
  have h2 : ("  Port ".toList ++ (port ++ ('\n' :: tail))).dropWhile isIndent =
      'P' :: ("ort ".toList ++ (port ++ ('\n' :: tail))) := by
    rw [dropWhile_append_stop _ hne]
    have hdp : ("  Port ".toList).dropWhile isIndent =
        'P' :: "ort ".toList := by decide
    rw [hdp]
    rfl
  have hall : ∀ c ∈ ("ort ".toList : List Char),
      (fun d => !(isLineTerm d)) c = true := by decide
  have h3 : ("ort ".toList ++ (port ++ ('\n' :: tail))).takeWhile
      (fun d => !(isLineTerm d)) = "ort ".toList ++ port := by
    rw [takeWhile_append_all _ hall, takeWhile_append_all _ hnt]
    have hstop : (('\n' :: tail).takeWhile (fun d => !(isLineTerm d))) = [] := by
      simp [List.takeWhile, isLineTerm]
    rw [hstop, List.append_nil]
  have h4 : ("ort ".toList ++ (port ++ ('\n' :: tail))).dropWhile
      (fun d => !(isLineTerm d)) = '\n' :: tail := by
    rw [dropWhile_append_all _ hall, dropWhile_append_all _ hnt]
    simp [List.dropWhile, isLineTerm]
  simp only [matchContLine, h1, h2, h3, h4]
  rw [if_neg (by decide : ¬([' ', ' '] : List Char) = [])]
  rw [if_neg (by decide : ¬ isJsSpace 'P' = true)]
  have ha : ([' ', ' '] : List Char) ++
      'P' :: (("ort ".toList ++ port) ++ ['\n']) =
      "  Port ".toList ++ port ++ ['\n'] := by
    have he1 : ("  Port ".toList : List Char) =
        [' ', ' ', 'P', 'o', 'r', 't', ' '] := by decide
    have he2 : ("ort ".toList : List Char) = ['o', 'r', 't', ' '] := by decide
    rw [he1, he2]
    simp [List.cons_append, List.append_assoc]
  rw [ha]

theorem contLoop_nbRest (port rest3 c3 r3 : List Char) (b3 : Bool)
    (hd : ∀ c ∈ port, isDigitCh c = true)
    (h3 : contLoop rest3 = (c3, r3, b3)) :
    contLoop ("  HostName localhost\n  Port ".toList ++
        (port ++ ('\n' :: rest3))) =
      ("  HostName localhost\n".toList ++
        (("  Port ".toList ++ port ++ ['\n']) ++ c3), r3, b3) := by
  have hsplit : ("  HostName localhost\n  Port ".toList : List Char) =
      "  HostName localhost\n".toList ++ "  Port ".toList := by decide
  rw [hsplit, List.append_assoc]
  have hm1 : matchContLine ("  HostName localhost\n".toList ++
      ("  Port ".toList ++ (port ++ ('\n' :: rest3)))) =
      some ("  HostName localhost\n".toList,
        "  Port ".toList ++ (port ++ ('\n' :: rest3)), true) :=
    matchContLine_hostNameLine _
  rw [contLoop_step_true hm1]
  have hm2 : matchContLine ("  Port ".toList ++ (port ++ ('\n' :: rest3))) =
      some ("  Port ".toList ++ port ++ ['\n'], rest3, true) :=
    matchContLine_portLine port rest3 hd
  rw [contLoop_step_true hm2, h3]

theorem matchBlockAt_newBlock (port : List Char)
    (hd : ∀ c ∈ port, isDigitCh c = true) :
    matchBlockAt (newBlock port) = some (newBlock port, [], false) := by
  have hsuf : (nbSuf : List Char) = '\n' :: "  User cdsw".toList := by decide
  have hu : contLoop ("  User cdsw".toList) =
      ("  User cdsw".toList, [], false) := by decide
  have hm := matchHostLine_nbPre (port ++ nbSuf)
  rw [newBlock, List.append_assoc]
  simp only [matchBlockAt, hm]
  rw [hsuf]
  rw [contLoop_nbRest port ("  User cdsw".toList) ("  User cdsw".toList) []
    false hd hu]
  have hassemble : "Host cml\n".toList ++
      ("  HostName localhost\n".toList ++
        (("  Port ".toList ++ port ++ ['\n']) ++ "  User cdsw".toList)) =
      nbPre ++ (port ++ ('\n' :: "  User cdsw".toList)) := by
    have e1 : ("Host cml\n".toList : List Char) =
        ['H', 'o', 's', 't', ' ', 'c', 'm', 'l', '\n'] := by decide
    have e2 : ("  HostName localhost\n".toList : List Char) =
        [' ', ' ', 'H', 'o', 's', 't', 'N', 'a', 'm', 'e', ' ', 'l', 'o', 'c',
          'a', 'l', 'h', 'o', 's', 't', '\n'] := by decide
    have e3 : ("  Port ".toList : List Char) =
        [' ', ' ', 'P', 'o', 'r', 't', ' '] := by decide
    have e4 : (nbPre : List Char) =
        ['H', 'o', 's', 't', ' ', 'c', 'm', 'l', '\n', ' ', ' ', 'H', 'o', 's',
          't', 'N', 'a', 'm', 'e', ' ', 'l', 'o', 'c', 'a', 'l', 'h', 'o', 's',
          't', '\n', ' ', ' ', 'P', 'o', 'r', 't', ' '] := by decide
    rw [e1, e2, e3, e4]
    simp [List.cons_append, List.append_assoc]
  rw [hassemble]

theorem matchBlockAt_newBlockNl (port : List Char)
    (hd : ∀ c ∈ port, isDigitCh c = true) :
    matchBlockAt (newBlock port ++ ['\n']) =
      some (newBlock port ++ ['\n'], [], true) := by
  have hshape : newBlock port ++ ['\n'] =
      nbPre ++ (port ++ ('\n' :: "  User cdsw\n".toList)) := by
    rw [newBlock]
    have hsuf : (nbSuf : List Char) ++ ['\n'] =
        '\n' :: "  User cdsw\n".toList := by decide
    rw [List.append_assoc, List.append_assoc, ← hsuf]
  have hu : contLoop ("  User cdsw\n".toList) =
      ("  User cdsw\n".toList, [], true) := by decide
  rw [hshape]
  have hm := matchHostLine_nbPre (port ++ ('\n' :: "  User cdsw\n".toList))
  simp only [matchBlockAt, hm]
  rw [contLoop_nbRest port ("  User cdsw\n".toList) ("  User cdsw\n".toList)
    [] true hd hu]
  have hassemble : "Host cml\n".toList ++
      ("  HostName localhost\n".toList ++
        (("  Port ".toList ++ port ++ ['\n']) ++ "  User cdsw\n".toList)) =
      nbPre ++ (port ++ ('\n' :: "  User cdsw\n".toList)) := by
    have e1 : ("Host cml\n".toList : List Char) =
        ['H', 'o', 's', 't', ' ', 'c', 'm', 'l', '\n'] := by decide
    have e2 : ("  HostName localhost\n".toList : List Char) =
        [' ', ' ', 'H', 'o', 's', 't', 'N', 'a', 'm', 'e', ' ', 'l', 'o', 'c',
          'a', 'l', 'h', 'o', 's', 't', '\n'] := by decide
    have e3 : ("  Port ".toList : List Char) =
        [' ', ' ', 'P', 'o', 'r', 't', ' '] := by decide
    have e4 : (nbPre : List Char) =
        ['H', 'o', 's', 't', ' ', 'c', 'm', 'l', '\n', ' ', ' ', 'H', 'o', 's',
          't', 'N', 'a', 'm', 'e', ' ', 'l', 'o', 'c', 'a', 'l', 'h', 'o', 's',
          't', '\n', ' ', ' ', 'P', 'o', 'r', 't', ' '] := by decide
    rw [e1, e2, e3, e4]
    simp [List.cons_append, List.append_assoc]
  rw [hassemble]

theorem countMatches_newBlock (port : List Char)
    (hd : ∀ c ∈ port, isDigitCh c = true) :
    countMatches (newBlock port) = 1 := by
  rw [countMatches, scanBlocks_single (matchBlockAt_newBlock port hd)]
  rfl

theorem countMatches_newBlockNl (port : List Char)
    (hd : ∀ c ∈ port, isDigitCh c = true) :
    countMatches (newBlock port ++ ['\n']) = 1 := by
  rw [countMatches, scanBlocks_single (matchBlockAt_newBlockNl port hd)]
  rfl

theorem replaceAll_newBlock (port nb : List Char)
    (hd : ∀ c ∈ port, isDigitCh c = true) :
    replaceAllMatches (newBlock port) nb = nb := by
  rw [replaceAllMatches, scanBlocks_single (matchBlockAt_newBlock port hd)]
  simp

theorem replaceAll_newBlockNl (port nb : List Char)
    (hd : ∀ c ∈ port, isDigitCh c = true) :
    replaceAllMatches (newBlock port ++ ['\n']) nb = nb := by
  rw [replaceAllMatches, scanBlocks_single (matchBlockAt_newBlockNl port hd)]
  simp

theorem acceptPort_digits {port : List Char} (h : acceptPort port = true) :
    ∀ c ∈ port, isDigitCh c = true := by
  simp only [acceptPort, Bool.and_eq_true, List.all_eq_true] at h
  exact h.2

/-- The upsert on an initially empty configuration file appends the rendered
block plus a trailing newline. -/
theorem updateSshConfig_empty (port : List Char)
    (hacc : acceptPort port = true) :
    updateSshConfig port [] = (some (newBlock port ++ ['\n']), true) := by
  have hd := acceptPort_digits hacc
  have hup : upsertStep port (dedupStep ([] : List Char)) =
      newBlock port ++ ['\n'] := by
    rw [(by decide : dedupStep ([] : List Char) = [])]
    simp only [upsertStep]
    rw [if_neg (by decide : ¬ (countMatches ([] : List Char) ≠ 0))]
    rw [if_neg (by decide : ¬ (jsTrim ([] : List Char) ≠ []))]
  simp only [updateSshConfig, if_pos hacc, hup,
    countMatches_newBlockNl port hd]
  simp

/-- A second run on the appended block replaces it in place, dropping the
trailing newline the first run wrote. -/
theorem updateSshConfig_newBlockNl (port : List Char)
    (hacc : acceptPort port = true) :
    updateSshConfig port (newBlock port ++ ['\n']) =
      (some (newBlock port), true) := by
  have hd := acceptPort_digits hacc
  have hc1 := countMatches_newBlockNl port hd
  have hded : dedupStep (newBlock port ++ ['\n']) = newBlock port ++ ['\n'] := by
    rw [dedupStep, if_neg]
    rw [hc1]
    decide
  have hup : upsertStep port (dedupStep (newBlock port ++ ['\n'])) =
      newBlock port := by
    rw [hded]
    simp only [upsertStep]
    rw [if_pos (by rw [hc1]; decide : countMatches (newBlock port ++ ['\n']) ≠ 0)]
    exact replaceAll_newBlockNl port (newBlock port) hd
  simp only [updateSshConfig, if_pos hacc, hup, countMatches_newBlock port hd]
  simp

/-- The rendered block alone is a fixed point of the upsert. -/
theorem updateSshConfig_newBlock (port : List Char)
    (hacc : acceptPort port = true) :
    updateSshConfig port (newBlock port) = (some (newBlock port), true) := by
  have hd := acceptPort_digits hacc
  have hc1 := countMatches_newBlock port hd
  have hded : dedupStep (newBlock port) = newBlock port := by
    rw [dedupStep, if_neg]
    rw [hc1]
    decide
  have hup : upsertStep port (dedupStep (newBlock port)) = newBlock port := by
    rw [hded]
    simp only [upsertStep]
    rw [if_pos (by rw [hc1]; decide : countMatches (newBlock port) ≠ 0)]
    exact replaceAll_newBlock port (newBlock port) hd
  simp only [updateSshConfig, if_pos hacc, hup, countMatches_newBlock port hd]
  simp

/-- A file corrupted with two standard blocks is deduplicated: both blocks
are deleted and the freshly rendered block is written as sole content. -/
theorem updateSshConfig_corrupt (port : List Char)
    (hacc : acceptPort port = true) :
    updateSshConfig port "Host cml\n  A\nHost cml\n  B\n".toList =
      (some (newBlock port ++ ['\n']), true) := by
  have hd := acceptPort_digits hacc
  have hup : upsertStep port
      (dedupStep "Host cml\n  A\nHost cml\n  B\n".toList) =
      newBlock port ++ ['\n'] := by
    rw [(by decide : dedupStep "Host cml\n  A\nHost cml\n  B\n".toList = [])]
    simp only [upsertStep]
    rw [if_neg (by decide : ¬ (countMatches ([] : List Char) ≠ 0))]
    rw [if_neg (by decide : ¬ (jsTrim ([] : List Char) ≠ []))]
  simp only [updateSshConfig, if_pos hacc, hup,
    countMatches_newBlockNl port hd]
  simp

/-- C1 counterexample: for the accepted port `2222` and the initial content
`Host\ncml` (no block at all under the pattern, since JS `\s+` lets `Host` and
`cml` sit on adjacent lines once newlines are appended), one call writes a
file in which the pattern matches twice — the exactly-one-block postcondition
fails — and accordingly returns `false`. -/
theorem C1_upsert_exactly_one_counterexample :
    countMatches
        ((updateSshConfig "2222".toList "Host\ncml".toList).1.getD []) = 2 ∧
      (updateSshConfig "2222".toList "Host\ncml".toList).2 = false := by
  constructor <;> decide

/-- C1 amended: the returned boolean is `true` exactly when the written
content contains exactly one `Host cml` block; and for a file corrupted with
two standard blocks one call does restore exactly one freshly rendered block
and returns `true`.  The unconditional exactly-one-block postcondition of the
original claim fails for some initial contents (see the counterexample). -/
theorem C1_upsert_boolean_amended (port content : List Char)
    (hacc : acceptPort port = true) :
    ((updateSshConfig port content).2 = true ↔
      countMatches ((updateSshConfig port content).1.getD []) = 1) ∧
      updateSshConfig port "Host cml\n  A\nHost cml\n  B\n".toList =
        (some (newBlock port ++ ['\n']), true) ∧
      countMatches (newBlock port ++ ['\n']) = 1 := by
  refine ⟨?_, updateSshConfig_corrupt port hacc,
    countMatches_newBlockNl port (acceptPort_digits hacc)⟩
  simp only [updateSshConfig, if_pos hacc, Option.getD_some]
  exact decide_eq_true_iff

/-- C1 witness: the amended statement at port `2222` on an initially empty
file. -/
theorem C1_upsert_boolean_amended_witness :
    ((updateSshConfig "2222".toList []).2 = true ↔
      countMatches ((updateSshConfig "2222".toList []).1.getD []) = 1) ∧
      updateSshConfig "2222".toList "Host cml\n  A\nHost cml\n  B\n".toList =
        (some (newBlock "2222".toList ++ ['\n']), true) ∧
      countMatches (newBlock "2222".toList ++ ['\n']) = 1 :=
  C1_upsert_boolean_amended "2222".toList [] (by decide)

/-- C2 counterexample: starting from an empty file with port `2222`, the
content written by the second call differs from the content written by the
first call — the trailing newline is dropped — so byte-idempotence fails. -/
theorem C2_idempotence_counterexample :
    (updateSshConfig "2222".toList
        ((updateSshConfig "2222".toList []).1.getD [])).1.getD [] ≠
      (updateSshConfig "2222".toList []).1.getD [] := by
  decide

/-- C2 amended: for every accepted port, starting from an empty file the
first call writes the rendered block plus a trailing newline, the second call
rewrites it without that newline — so the file after the second call is not
byte-identical to the file after the first — and from the second call on the
content is a fixed point: every further call leaves it unchanged and returns
`true`. -/
theorem C2_idempotence_amended (port : List Char)
    (hacc : acceptPort port = true) :
    updateSshConfig port [] = (some (newBlock port ++ ['\n']), true) ∧
      updateSshConfig port (newBlock port ++ ['\n']) =
        (some (newBlock port), true) ∧
      updateSshConfig port (newBlock port) = (some (newBlock port), true) ∧
      newBlock port ++ ['\n'] ≠ newBlock port := by
  refine ⟨updateSshConfig_empty port hacc,
    updateSshConfig_newBlockNl port hacc,
    updateSshConfig_newBlock port hacc, ?_⟩
  intro h
  have hlen := congrArg List.length h
  simp at hlen

/-- C2 witness: the amended statement at port `2222`. -/
theorem C2_idempotence_amended_witness :
    updateSshConfig "2222".toList [] =
        (some (newBlock "2222".toList ++ ['\n']), true) ∧
      updateSshConfig "2222".toList (newBlock "2222".toList ++ ['\n']) =
        (some (newBlock "2222".toList), true) ∧
      updateSshConfig "2222".toList (newBlock "2222".toList) =
        (some (newBlock "2222".toList), true) ∧
      newBlock "2222".toList ++ ['\n'] ≠ newBlock "2222".toList :=
  C2_idempotence_amended "2222".toList (by decide)
